import Mathlib

/-!
The program `sample_age.c`

A shallow embedding of `example_codes/sample_age.c` and the properties of its
output.  The program declares four scalars, prints five formatted lines, one of
two conditional lines and a footer, and returns 0.

* C `int` values are integers, the addition wraps modulo `2^32` into the
  two's complement range.
* `float` and `double` values are exact dyadic numbers, infinities or NaN;
  conversions from a decimal constant round to the nearest value, ties to even.
  The exponent is not bounded: the constants of the program, 5.9 and 6.0, lie
  in the normal range of both types, and the promotion of a float to double is
  the identity on values.
* A `char` is a character; passing it to `printf` and writing it with `%c`
  leaves it unchanged.
* Standard output is the list of characters written so far; `printf` interprets
  its format string over its arguments and appends the text.
-/

namespace SampleAge

/-! ## Integers -/

/-- The least value of the C type int. -/
def INT_MIN : Int := -2147483648

/-- The greatest value of the C type int. -/
def INT_MAX : Int := 2147483647

/-- Membership of the range of the C type int. -/
def inIntRange (x : Int) : Prop := INT_MIN ≤ x ∧ x ≤ INT_MAX

instance (x : Int) : Decidable (inIntRange x) := by
  unfold inIntRange; exact inferInstance

/-- Reduction of an integer into the 32-bit two's complement range. -/
def wrapInt (x : Int) : Int := (x + 2147483648) % 4294967296 - 2147483648

/-- The `+` of two int operands. -/
def int_add (a b : Int) : Int := wrapInt (a + b)

/-! ## Floating values -/

/-- A value of a binary floating type: `finite neg m e` is `(-1)^neg * m * 2^e`. -/
inductive CFloat where
  | finite (neg : Bool) (m : Nat) (e : Int)
  | inf (neg : Bool)
  | nan (neg : Bool)
  deriving DecidableEq

/-- Quotient `n / d` rounded to the nearest natural number, ties to even. -/
def roundHalfEven (n d : Nat) : Nat :=
  let q := n / d
  let r := n % d
  if 2 * r < d then q
  else if d < 2 * r then q + 1
  else if q % 2 = 0 then q else q + 1

/-- Scaling of `n / d` by a power of two until `2^(p-1) * d ≤ n < 2^p * d`;
the result `(n', d', e)` satisfies `n / d = (n' / d') * 2^e`. -/
def scaleToPrec (p : Nat) : Nat → Nat → Nat → Int → Nat × Nat × Int
  | 0, n, d, e => (n, d, e)
  | fuel + 1, n, d, e =>
    if d * 2 ^ p ≤ n then scaleToPrec p fuel n (2 * d) (e + 1)
    else if n < d * 2 ^ (p - 1) then scaleToPrec p fuel (2 * n) d (e - 1)
    else (n, d, e)

/-- The positive rational `n / d` rounded to `p` significant bits, ties to even
(unbounded exponent). -/
def roundToPrec (p : Nat) (n d : Nat) : CFloat :=
  if n = 0 then CFloat.finite false 0 0
  else
    let s := scaleToPrec p (n + d + p) n d 0
    let m := roundHalfEven s.1 s.2.1
    if m = 2 ^ p then CFloat.finite false (2 ^ (p - 1)) (s.2.2 + 1)
    else CFloat.finite false m s.2.2

/-- The double constant written as the decimal `n / d`. -/
def double_of_decimal (n d : Nat) : CFloat := roundToPrec 53 n d

/-- Conversion of a double to float. -/
def float_of_double : CFloat → CFloat
  | CFloat.finite neg m e =>
    if e < 0 then
      match roundToPrec 24 m (2 ^ (-e).toNat) with
      | CFloat.finite _ m' e' => CFloat.finite neg m' e'
      | x => x
    else
      match roundToPrec 24 (m * 2 ^ e.toNat) 1 with
      | CFloat.finite _ m' e' => CFloat.finite neg m' e'
      | x => x
  | x => x

/-- Numerator of a finite value over the denominator `finiteDen`. -/
def finiteNum (neg : Bool) (m : Nat) (e : Int) : Int :=
  let a : Int := if e < 0 then (m : Int) else (m : Int) * 2 ^ e.toNat
  if neg then -a else a

/-- Denominator of a finite value. -/
def finiteDen (e : Int) : Nat := if e < 0 then 2 ^ (-e).toNat else 1

/-- The comparison `a > b` of two floating values; false when either is NaN. -/
def CFloat.gt : CFloat → CFloat → Bool
  | CFloat.nan _, _ => false
  | _, CFloat.nan _ => false
  | CFloat.inf false, CFloat.inf false => false
  | CFloat.inf false, _ => true
  | CFloat.inf true, _ => false
  | CFloat.finite _ _ _, CFloat.inf neg => neg
  | CFloat.finite na ma ea, CFloat.finite nb mb eb =>
    decide (finiteNum nb mb eb * finiteDen ea < finiteNum na ma ea * finiteDen eb)

/-- The comparison `a <= b` of two floating values; false when either is NaN. -/
def CFloat.le : CFloat → CFloat → Bool
  | CFloat.nan _, _ => false
  | _, CFloat.nan _ => false
  | CFloat.inf true, _ => true
  | CFloat.inf false, CFloat.inf false => true
  | CFloat.inf false, _ => false
  | CFloat.finite _ _ _, CFloat.inf neg => !neg
  | CFloat.finite na ma ea, CFloat.finite nb mb eb =>
    decide (finiteNum na ma ea * finiteDen eb ≤ finiteNum nb mb eb * finiteDen ea)

/-! ## Formatted output -/

/-- The character of a decimal digit. -/
def digitChar (d : Nat) : Char := Char.ofNat (48 + d % 10)

/-- Decimal digits of `n` in front of `acc`, most significant first. -/
def decimalCore : Nat → Nat → List Char → List Char
  | 0, _, acc => acc
  | fuel + 1, n, acc =>
    if n / 10 = 0 then digitChar n :: acc
    else decimalCore fuel (n / 10) (digitChar n :: acc)

/-- Decimal rendering of a natural number. -/
def decimal (n : Nat) : List Char := decimalCore (n + 1) n []

/-- The conversion `%d`: the decimal digits, after a minus sign when negative. -/
def fmt_d (i : Int) : List Char :=
  if i < 0 then '-' :: decimal i.natAbs else decimal i.natAbs

/-- The magnitude of a finite value in tenths, rounded to nearest, ties to even. -/
def tenths (m : Nat) (e : Int) : Nat :=
  if e < 0 then roundHalfEven (m * 10) (2 ^ (-e).toNat) else m * 2 ^ e.toNat * 10

/-- The conversion `%.1f`: the sign, the integer part, a point and one digit,
the value rounded to the nearest tenth; `inf` and `nan` for the other values. -/
def fmt_1f : CFloat → List Char
  | CFloat.finite neg m e =>
    let t := tenths m e
    (if neg then ['-'] else []) ++ decimal (t / 10) ++ '.' :: [digitChar (t % 10)]
  | CFloat.inf neg => (if neg then ['-'] else []) ++ ['i', 'n', 'f']
  | CFloat.nan neg => (if neg then ['-'] else []) ++ ['n', 'a', 'n']

/-- An argument of `printf` after the default argument promotions. -/
inductive Arg where
  | int (i : Int)
  | chr (c : Char)
  | dbl (x : CFloat)

/-- The text `printf` produces for a format and its arguments.  The conversions
are `%c`, `%d` and `%.1f`; any other character is copied. -/
def format : List Char → List Arg → List Char
  | [], _ => []
  | '%' :: 'c' :: fs, Arg.chr ch :: as => ch :: format fs as
  | '%' :: 'd' :: fs, Arg.int i :: as => fmt_d i ++ format fs as
  | '%' :: '.' :: '1' :: 'f' :: fs, Arg.dbl x :: as => fmt_1f x ++ format fs as
  | c :: fs, as => c :: format fs as

/-- The process environment a C program can observe, and its standard output. -/
structure World where
  stdin : List Char
  argv : List String
  environ : List String
  stdout : List Char
  deriving DecidableEq

/-- The call `printf(fmt, args...)`. -/
def printf (fmt : String) (args : List Arg) (w : World) : World :=
  { w with stdout := w.stdout ++ format fmt.toList args }

/-- The double constant `6.0`. -/
def SIX : CFloat := double_of_decimal 6 1

/-- The initialiser of `future_age`: `age + years_later`. -/
def future_age (age years_later : Int) : Int := int_add age years_later

/-- The function `main` over its four initialised variables. -/
def main_with (age : Int) (height : CFloat) (initial : Char) (years_later : Int)
    (w : World) : World × Int :=
  let w := printf "--- User Profile ---\n" [] w
  let w := printf "Initial: %c\n" [Arg.chr initial] w
  let w := printf "Current Age: %d years\n" [Arg.int age] w
  let w := printf "Height: %.1f feet\n" [Arg.dbl height] w
  let future_age := future_age age years_later
  let w := printf "In %d years, age will be: %d\n" [Arg.int years_later, Arg.int future_age] w
  let w :=
    if CFloat.gt height SIX then printf "You're quite tall!\n" [] w
    else printf "Average height noted.\n" [] w
  let w := printf "--- End of Profile ---\n" [] w
  (w, 0)

/-- The value of `float height = 5.9`. -/
def height : CFloat := float_of_double (double_of_decimal 59 10)

/-- The function `main`. -/
def main (w : World) : World × Int := main_with 30 height 'J' 5 w

/-- A world with nothing on standard output yet. -/
def World.empty : World := ⟨[], [], [], []⟩

/-- The lines of a text: the newline-terminated lines, and a last unterminated
one when there is one. -/
def lines : List Char → List (List Char)
  | [] => []
  | c :: cs =>
    if c = '\n' then [] :: lines cs
    else
      match lines cs with
      | [] => [[c]]
      | l :: ls => (c :: l) :: ls

/-- The lines of a text as strings. -/
def textLines (t : List Char) : List String := (lines t).map String.mk

/-- The text `main_with` writes when standard output starts empty. -/
def output_with (age : Int) (height : CFloat) (initial : Char) (years_later : Int) :
    List Char :=
  (main_with age height initial years_later World.empty).1.stdout

/-- The text `main` writes when standard output starts empty. -/
def main_output : List Char := (main World.empty).1.stdout

/-- The text a run appends to the standard output it started with. -/
def written (w : World) : List Char := (main w).1.stdout.drop w.stdout.length

/-- The line the branch on `height > 6.0` writes. -/
def conditionalLine (h : CFloat) : List Char :=
  if CFloat.gt h SIX then "You're quite tall!".toList else "Average height noted.".toList

/-- The lines the call `printf("Initial: %c\n", initial)` contributes. -/
def initialLines (c : Char) : List (List Char) :=
  if c = '\n' then ["Initial: ".toList, []] else ["Initial: ".toList ++ [c]]

/-- The line `Current Age: <age> years`. -/
def ageLine (age : Int) : List Char :=
  "Current Age: ".toList ++ (fmt_d age ++ " years".toList)

/-- The line `Height: <height> feet`. -/
def heightLine (h : CFloat) : List Char :=
  "Height: ".toList ++ (fmt_1f h ++ " feet".toList)

/-- The line `In <years_later> years, age will be: <future_age>`. -/
def inLine (years_later future : Int) : List Char :=
  "In ".toList ++ (fmt_d years_later ++ (" years, age will be: ".toList ++ fmt_d future))

/-- The value of a finite floating value as a rational number. -/
def finiteVal (neg : Bool) (m : Nat) (e : Int) : ℚ :=
  (if neg then -1 else 1) * (m : ℚ) * (2 : ℚ) ^ e

/-! ## Lines of a text -/

theorem lines_append_newline (l rest : List Char) (h : '\n' ∉ l) :
    lines (l ++ '\n' :: rest) = l :: lines rest := by
  induction l with
  | nil => simp [lines]
  | cons c l ih =>
    have hc : c ≠ '\n' := fun e => h (by simp [e])
    have hl : '\n' ∉ l := fun e => h (by simp [e])
    simp [lines, hc, ih hl]

/-! ## No newline inside a conversion -/

theorem digitChar_ne_newline (d : Nat) : digitChar d ≠ '\n' := by
  unfold digitChar
  have h : d % 10 < 10 := Nat.mod_lt _ (by decide)
  generalize d % 10 = k at h
  interval_cases k <;> decide

theorem decimalCore_no_newline (fuel : Nat) : ∀ (n : Nat) (acc : List Char),
    '\n' ∉ acc → '\n' ∉ decimalCore fuel n acc := by
  induction fuel with
  | zero => intro n acc h; simpa [decimalCore] using h
  | succ fuel ih =>
    intro n acc h
    have hd : '\n' ∉ digitChar n :: acc := by
      simp only [List.mem_cons, not_or]
      exact ⟨fun e => digitChar_ne_newline n e.symm, h⟩
    unfold decimalCore
    split
    · exact hd
    · exact ih _ _ hd

theorem decimal_no_newline (n : Nat) : '\n' ∉ decimal n :=
  decimalCore_no_newline _ _ _ (by simp)

theorem fmt_d_no_newline (i : Int) : '\n' ∉ fmt_d i := by
  unfold fmt_d
  split
  · simp only [List.mem_cons, not_or]
    exact ⟨by decide, decimal_no_newline _⟩
  · exact decimal_no_newline _

theorem fmt_1f_no_newline (x : CFloat) : '\n' ∉ fmt_1f x := by
  cases x with
  | finite neg m e =>
    have h1 := decimal_no_newline (tenths m e / 10)
    have h2 := digitChar_ne_newline (tenths m e % 10)
    cases neg <;> simp [fmt_1f, h1, Ne.symm h2]
  | inf neg => cases neg <;> decide
  | nan neg => cases neg <;> decide

/-! ## The text of a run -/

theorem format_initial (c : Char) :
    format "Initial: %c\n".toList [Arg.chr c] = "Initial: ".toList ++ c :: ['\n'] := rfl

theorem format_age (a : Int) :
    format "Current Age: %d years\n".toList [Arg.int a] = ageLine a ++ ['\n'] := by
  have h : format "Current Age: %d years\n".toList [Arg.int a]
      = "Current Age: ".toList ++ (fmt_d a ++ (" years".toList ++ ['\n'])) := rfl
  rw [h, ageLine]; simp only [List.append_assoc]

theorem format_height (x : CFloat) :
    format "Height: %.1f feet\n".toList [Arg.dbl x] = heightLine x ++ ['\n'] := by
  have h : format "Height: %.1f feet\n".toList [Arg.dbl x]
      = "Height: ".toList ++ (fmt_1f x ++ (" feet".toList ++ ['\n'])) := rfl
  rw [h, heightLine]; simp only [List.append_assoc]

theorem format_in (y f : Int) :
    format "In %d years, age will be: %d\n".toList [Arg.int y, Arg.int f]
      = inLine y f ++ ['\n'] := by
  have h : format "In %d years, age will be: %d\n".toList [Arg.int y, Arg.int f]
      = "In ".toList ++ (fmt_d y ++ (" years, age will be: ".toList ++ (fmt_d f ++ ['\n']))) :=
    rfl
  rw [h, inLine]; simp only [List.append_assoc]

theorem format_conditional (h : CFloat) :
    (if CFloat.gt h SIX then format "You're quite tall!\n".toList []
      else format "Average height noted.\n".toList []) = conditionalLine h ++ ['\n'] := by
  unfold conditionalLine
  split <;> rfl

theorem main_with_stdout (a : Int) (h : CFloat) (c : Char) (y : Int) (w : World) :
    (main_with a h c y w).1.stdout = w.stdout ++
      ("--- User Profile ---".toList ++ '\n' :: ("Initial: ".toList ++ c :: '\n' ::
        (ageLine a ++ '\n' :: (heightLine h ++ '\n' :: (inLine y (future_age a y) ++ '\n' ::
          (conditionalLine h ++ '\n' :: ("--- End of Profile ---".toList ++ ['\n']))))))) := by
  have h1 : format "--- User Profile ---\n".toList [] = "--- User Profile ---".toList ++ ['\n'] :=
    rfl
  have h7 : format "--- End of Profile ---\n".toList []
      = "--- End of Profile ---".toList ++ ['\n'] := rfl
  have hc := format_conditional h
  unfold main_with printf
  rcases Bool.eq_false_or_eq_true (CFloat.gt h SIX) with hg | hg
  · simp only [hg, if_true] at hc ⊢
    simp only [h1, h7, hc, format_initial, format_age, format_height, format_in,
      List.append_assoc, List.cons_append, List.nil_append]
  · simp only [hg, Bool.false_eq_true, if_false] at hc ⊢
    simp only [h1, h7, hc, format_initial, format_age, format_height, format_in,
      List.append_assoc, List.cons_append, List.nil_append]

theorem output_with_eq (a : Int) (h : CFloat) (c : Char) (y : Int) :
    output_with a h c y =
      "--- User Profile ---".toList ++ '\n' :: ("Initial: ".toList ++ c :: '\n' ::
        (ageLine a ++ '\n' :: (heightLine h ++ '\n' :: (inLine y (future_age a y) ++ '\n' ::
          (conditionalLine h ++ '\n' :: ("--- End of Profile ---".toList ++ ['\n'])))))) := by
  unfold output_with
  rw [main_with_stdout]
  rfl

theorem ageLine_no_newline (a : Int) : '\n' ∉ ageLine a := by
  have h1 : '\n' ∉ "Current Age: ".toList := by decide
  have h2 : '\n' ∉ " years".toList := by decide
  simp only [ageLine, List.mem_append, not_or]
  exact ⟨h1, fmt_d_no_newline a, h2⟩

theorem heightLine_no_newline (x : CFloat) : '\n' ∉ heightLine x := by
  have h1 : '\n' ∉ "Height: ".toList := by decide
  have h2 : '\n' ∉ " feet".toList := by decide
  simp only [heightLine, List.mem_append, not_or]
  exact ⟨h1, fmt_1f_no_newline x, h2⟩

theorem inLine_no_newline (y f : Int) : '\n' ∉ inLine y f := by
  have h1 : '\n' ∉ "In ".toList := by decide
  have h2 : '\n' ∉ " years, age will be: ".toList := by decide
  simp only [inLine, List.mem_append, not_or]
  exact ⟨h1, fmt_d_no_newline y, h2, fmt_d_no_newline f⟩

theorem conditionalLine_no_newline (h : CFloat) : '\n' ∉ conditionalLine h := by
  unfold conditionalLine
  split <;> decide

theorem lines_initial (c : Char) (rest : List Char) :
    lines ("Initial: ".toList ++ c :: '\n' :: rest) = initialLines c ++ lines rest := by
  have h1 : '\n' ∉ "Initial: ".toList := by decide
  by_cases hc : c = '\n'
  · subst hc
    rw [lines_append_newline _ _ h1]
    simp [initialLines, lines]
  · have h2 : '\n' ∉ "Initial: ".toList ++ [c] := by
      simp only [List.mem_append, List.mem_singleton, not_or]
      exact ⟨h1, fun e => hc e.symm⟩
    have h3 : "Initial: ".toList ++ c :: '\n' :: rest
        = ("Initial: ".toList ++ [c]) ++ '\n' :: rest := by
      simp only [List.append_assoc, List.cons_append, List.nil_append]
    rw [h3, lines_append_newline _ _ h2]
    simp [initialLines, hc]

/-- The lines of the text a run writes, for all values of the four variables. -/
theorem lines_output_with (a : Int) (h : CFloat) (c : Char) (y : Int) :
    lines (output_with a h c y) =
      "--- User Profile ---".toList :: (initialLines c ++
        [ageLine a, heightLine h, inLine y (future_age a y), conditionalLine h,
          "--- End of Profile ---".toList]) := by
  have h1 : '\n' ∉ "--- User Profile ---".toList := by decide
  have h7 : '\n' ∉ "--- End of Profile ---".toList := by decide
  rw [output_with_eq, lines_append_newline _ _ h1, lines_initial,
    lines_append_newline _ _ (ageLine_no_newline a),
    lines_append_newline _ _ (heightLine_no_newline h),
    lines_append_newline _ _ (inLine_no_newline _ _),
    lines_append_newline _ _ (conditionalLine_no_newline h),
    lines_append_newline _ _ h7]
  rfl

/-- The lines of a run over all values of `height`, the other variables as in `main`. -/
theorem lines_output_height (h : CFloat) :
    lines (output_with 30 h 'J' 5) =
      ["--- User Profile ---".toList, "Initial: J".toList, "Current Age: 30 years".toList,
        heightLine h, "In 5 years, age will be: 35".toList, conditionalLine h,
        "--- End of Profile ---".toList] := by
  rw [lines_output_with]
  rfl

theorem heightLine_head (x : CFloat) : (heightLine x).head? = some 'H' := rfl

theorem heightLine_ne_tall (x : CFloat) : heightLine x ≠ "You're quite tall!".toList := by
  intro e
  have h := congrArg List.head? e
  rw [heightLine_head] at h
  exact absurd h (by decide)

theorem heightLine_ne_average (x : CFloat) : heightLine x ≠ "Average height noted.".toList := by
  intro e
  have h := congrArg List.head? e
  rw [heightLine_head] at h
  exact absurd h (by decide)

theorem tall_mem_iff (h : CFloat) :
    "You're quite tall!".toList ∈ lines (output_with 30 h 'J' 5) ↔ CFloat.gt h SIX = true := by
  rw [lines_output_height]
  simp only [List.mem_cons, List.mem_singleton, List.not_mem_nil, or_false]
  constructor
  · intro hm
    rcases hm with e | e | e | e | e | e | e
    · exact absurd e (by decide)
    · exact absurd e (by decide)
    · exact absurd e (by decide)
    · exact absurd e.symm (heightLine_ne_tall h)
    · exact absurd e (by decide)
    · rcases Bool.eq_false_or_eq_true (CFloat.gt h SIX) with hg | hg
      · exact hg
      · rw [conditionalLine, hg] at e
        exact absurd e (by decide)
    · exact absurd e (by decide)
  · intro hg
    right; right; right; right; right; left
    rw [conditionalLine, hg]
    rfl

theorem average_mem_iff (h : CFloat) :
    "Average height noted.".toList ∈ lines (output_with 30 h 'J' 5) ↔
      CFloat.gt h SIX = false := by
  rw [lines_output_height]
  simp only [List.mem_cons, List.mem_singleton, List.not_mem_nil, or_false]
  constructor
  · intro hm
    rcases hm with e | e | e | e | e | e | e
    · exact absurd e (by decide)
    · exact absurd e (by decide)
    · exact absurd e (by decide)
    · exact absurd e.symm (heightLine_ne_average h)
    · exact absurd e (by decide)
    · rcases Bool.eq_false_or_eq_true (CFloat.gt h SIX) with hg | hg
      · rw [conditionalLine, hg] at e
        exact absurd e (by decide)
      · exact hg
    · exact absurd e (by decide)
  · intro hg
    right; right; right; right; right; left
    rw [conditionalLine, hg]
    rfl

theorem SIX_eq : SIX = CFloat.finite false 6755399441055744 (-50) := by decide

/-- Away from NaN, `a <= 6.0` holds exactly when `a > 6.0` does not. -/
theorem le_SIX_iff_not_gt (h : CFloat) (hn : ∀ s, h ≠ CFloat.nan s) :
    CFloat.le h SIX = true ↔ CFloat.gt h SIX = false := by
  rw [SIX_eq]
  cases h with
  | finite neg m e =>
    simp only [CFloat.le, CFloat.gt, decide_eq_true_eq, decide_eq_false_iff_not, not_lt]
  | inf neg => cases neg <;> simp [CFloat.le, CFloat.gt]
  | nan s => exact absurd rfl (hn s)

theorem gt_nan (s : Bool) (b : CFloat) : CFloat.gt (CFloat.nan s) b = false := by
  cases b <;> rfl

theorem le_nan (s : Bool) (b : CFloat) : CFloat.le (CFloat.nan s) b = false := by
  cases b <;> rfl

theorem written_eq (w : World) : written w = main_output := by
  unfold written main_output main
  rw [main_with_stdout, main_with_stdout]
  simp [World.empty]

/-- The number of lines of a run: seven, and eight when `initial` is the newline
character. -/
theorem output_with_line_count (a : Int) (h : CFloat) (c : Char) (y : Int) :
    (lines (output_with a h c y)).length = if c = '\n' then 8 else 7 := by
  rw [lines_output_with]
  by_cases hc : c = '\n' <;> simp [initialLines, hc]

/-! ## Floating values as rational numbers -/

/-- The result of `roundHalfEven` is within one half of the quotient. -/
theorem roundHalfEven_near (n d : Nat) (hd : 0 < d) :
    2 * ((roundHalfEven n d : ℤ) * d - n).natAbs ≤ d := by
  have h := Nat.div_add_mod n d
  have hr := Nat.mod_lt n hd
  unfold roundHalfEven
  simp only
  generalize n / d = q at h ⊢
  generalize n % d = r at h hr ⊢
  subst h
  have e1 : (q : ℤ) * d - ((d * q + r : ℕ) : ℤ) = -(r : ℤ) := by push_cast; ring
  have e2 : ((q + 1 : ℕ) : ℤ) * d - ((d * q + r : ℕ) : ℤ) = (d : ℤ) - r := by push_cast; ring
  split_ifs <;> first | rw [e1] | rw [e2]
  all_goals omega


theorem finiteVal_height : finiteVal false 12373197 (-21) = 12373197 / 2097152 := by
  norm_num [finiteVal]

theorem finiteVal_nearest_height (neg : Bool) (m : Nat) (e : Int) (hm : m < 2 ^ 24) :
    |finiteVal false 12373197 (-21) - 59 / 10| ≤ |finiteVal neg m e - 59 / 10| := by
  rw [finiteVal_height]
  have hl : |(12373197 / 2097152 : ℚ) - 59 / 10| = 1 / 10485760 := by
    rw [abs_of_nonneg] <;> norm_num
  rw [hl, le_abs]
  have hpos : (0 : ℚ) < (2 : ℚ) ^ e := zpow_pos (by norm_num) e
  have hm0 : (0 : ℚ) ≤ (m : ℚ) := Nat.cast_nonneg m
  cases neg with
  | true =>
    right
    have : finiteVal true m e ≤ 0 := by
      simp only [finiteVal, if_true]
      have := mul_nonneg hm0 hpos.le
      linarith
    linarith
  | false =>
    have hv : finiteVal false m e = (m : ℚ) * (2 : ℚ) ^ e := by
      simp [finiteVal]
    rw [hv]
    by_cases he : -21 ≤ e
    · obtain ⟨j, hj⟩ : ∃ j : ℕ, e = (j : ℤ) + (-21) := ⟨(e + 21).toNat, by omega⟩
      have h2 : (2 : ℚ) ^ e = (2 : ℚ) ^ j / 2097152 := by
        rw [hj, zpow_add₀ (by norm_num : (2 : ℚ) ≠ 0), zpow_natCast]
        norm_num
        ring
      have hk : (m : ℚ) * (2 : ℚ) ^ e = ((m * 2 ^ j : ℕ) : ℚ) / 2097152 := by
        rw [h2]; push_cast; ring
      rw [hk]
      generalize m * 2 ^ j = k
      rcases Nat.lt_or_ge k 12373197 with hlt | hge
      · right
        have : (k : ℚ) ≤ 12373196 := by exact_mod_cast Nat.lt_succ_iff.mp hlt
        rw [neg_sub, le_sub_iff_add_le, ← le_sub_iff_add_le', div_le_iff₀ (by norm_num)]
        norm_num
        linarith
      · left
        have : (12373197 : ℚ) ≤ k := by exact_mod_cast hge
        rw [le_sub_iff_add_le, le_div_iff₀ (by norm_num)]
        norm_num
        linarith
    · right
      have h2 : (2 : ℚ) ^ e ≤ (2 : ℚ) ^ (-22 : ℤ) :=
        zpow_le_zpow_right₀ (by norm_num) (by omega)
      have h3 : (2 : ℚ) ^ (-22 : ℤ) = 1 / 4194304 := by norm_num
      have hm' : (m : ℚ) < 16777216 := by exact_mod_cast hm
      have : (m : ℚ) * (2 : ℚ) ^ e ≤ 16777216 * (1 / 4194304) := by
        rw [← h3]
        exact mul_le_mul hm'.le h2 hpos.le (by norm_num)
      linarith

theorem finiteVal_eq_div (neg : Bool) (m : Nat) (e : Int) :
    finiteVal neg m e = (finiteNum neg m e : ℚ) / (finiteDen e : ℚ) := by
  by_cases he : e < 0
  · obtain ⟨k, hk⟩ : ∃ k : ℕ, e = -(k : ℤ) := ⟨(-e).toNat, by omega⟩
    have hk' : (-e).toNat = k := by omega
    have h2 : (2 : ℚ) ^ e = ((2 : ℚ) ^ k)⁻¹ := by rw [hk, zpow_neg, zpow_natCast]
    cases neg <;> simp [finiteVal, finiteNum, finiteDen, he, hk', h2, div_eq_mul_inv]
  · obtain ⟨k, hk⟩ : ∃ k : ℕ, e = (k : ℤ) := ⟨e.toNat, by omega⟩
    have hk' : e.toNat = k := by omega
    have h2 : (2 : ℚ) ^ e = (2 : ℚ) ^ k := by rw [hk, zpow_natCast]
    cases neg <;> simp [finiteVal, finiteNum, finiteDen, he, hk', h2]

theorem finiteDen_pos (e : Int) : 0 < finiteDen e := by
  unfold finiteDen
  split
  · exact pow_pos (by decide) _
  · exact Nat.one_pos

/-- The comparison of finite values is the order of the rational numbers. -/
theorem gt_finite_iff (na : Bool) (ma : Nat) (ea : Int) (nb : Bool) (mb : Nat) (eb : Int) :
    CFloat.gt (CFloat.finite na ma ea) (CFloat.finite nb mb eb) = true ↔
      finiteVal nb mb eb < finiteVal na ma ea := by
  have ha : (0 : ℚ) < (finiteDen ea : ℚ) := by exact_mod_cast finiteDen_pos ea
  have hb : (0 : ℚ) < (finiteDen eb : ℚ) := by exact_mod_cast finiteDen_pos eb
  rw [finiteVal_eq_div, finiteVal_eq_div, div_lt_div_iff₀ hb ha]
  simp only [CFloat.gt, decide_eq_true_eq]
  constructor
  · intro h
    have : ((finiteNum nb mb eb * (finiteDen ea : ℤ) : ℤ) : ℚ)
        < ((finiteNum na ma ea * (finiteDen eb : ℤ) : ℤ) : ℚ) := by exact_mod_cast h
    push_cast at this
    exact this
  · intro h
    have : ((finiteNum nb mb eb * (finiteDen ea : ℤ) : ℤ) : ℚ)
        < ((finiteNum na ma ea * (finiteDen eb : ℤ) : ℤ) : ℚ) := by
      push_cast
      exact h
    exact_mod_cast this

/-- The comparison `<=` of finite values is the order of the rational numbers. -/
theorem le_finite_iff (na : Bool) (ma : Nat) (ea : Int) (nb : Bool) (mb : Nat) (eb : Int) :
    CFloat.le (CFloat.finite na ma ea) (CFloat.finite nb mb eb) = true ↔
      finiteVal na ma ea ≤ finiteVal nb mb eb := by
  have h := gt_finite_iff na ma ea nb mb eb
  rw [← not_lt, ← h]
  simp only [CFloat.le, CFloat.gt, decide_eq_true_eq, not_lt]

theorem finiteVal_SIX : finiteVal false 6755399441055744 (-50) = 6 := by
  norm_num [finiteVal]

/-! ## The claims -/

/-- C1: with the literal values of `main` (age 30, height 5.9, initial J,
years_later 5) the text appended to standard output is exactly the seven
newline-terminated lines of the profile, in order, and nothing else. -/
theorem main_writes_profile (w : World) :
    (main w).1.stdout = w.stdout ++
      ("--- User Profile ---\nInitial: J\nCurrent Age: 30 years\nHeight: 5.9 feet\n" ++
        "In 5 years, age will be: 35\nAverage height noted.\n--- End of Profile ---\n").toList ∧
    textLines main_output =
      ["--- User Profile ---", "Initial: J", "Current Age: 30 years", "Height: 5.9 feet",
        "In 5 years, age will be: 35", "Average height noted.", "--- End of Profile ---"] := by
  refine ⟨?_, by decide⟩
  unfold main
  rw [main_with_stdout]
  congr 1

/-- C2, as stated, fails: the text `main` writes does not consist of eight lines. -/
theorem main_output_not_eight_lines :
    (lines main_output).length ≠ 8 ∧ main_output.count '\n' ≠ 8 := by
  decide

/-- C2, amended: the text `main` writes consists of exactly seven lines, each
terminated by a newline: seven newline characters, the last one at the end. -/
theorem main_output_seven_lines :
    (lines main_output).length = 7 ∧ main_output.count '\n' = 7 ∧
      main_output.getLast? = some '\n' := by
  decide

/-- C3, as stated, fails at NaN: the average-height line is written although
`height <= 6.0` is false. -/
theorem average_line_not_iff_le :
    ¬ ("Average height noted.".toList ∈ lines (output_with 30 (CFloat.nan false) 'J' 5) ↔
        CFloat.le (CFloat.nan false) SIX = true) := by
  decide

/-- C3, amended: for every value of height the tall line is written if and only
if `height > 6.0`, and the average-height line is written if and only if
`height <= 6.0` or height is a NaN, that is if and only if `height > 6.0` is
false. -/
theorem conditional_line_iff (h : CFloat) :
    ("You're quite tall!".toList ∈ lines (output_with 30 h 'J' 5) ↔ CFloat.gt h SIX = true) ∧
    ("Average height noted.".toList ∈ lines (output_with 30 h 'J' 5) ↔
      (CFloat.le h SIX = true ∨ ∃ s, h = CFloat.nan s)) ∧
    ("Average height noted.".toList ∈ lines (output_with 30 h 'J' 5) ↔
      CFloat.gt h SIX = false) ∧
    (∀ (neg : Bool) (m : Nat) (e : Int),
      "You're quite tall!".toList ∈ lines (output_with 30 (CFloat.finite neg m e) 'J' 5) ↔
        6 < finiteVal neg m e) := by
  refine ⟨tall_mem_iff h, ?_, average_mem_iff h, ?_⟩
  swap
  · intro neg m e
    rw [tall_mem_iff, SIX_eq, gt_finite_iff, finiteVal_SIX]
  rw [average_mem_iff]
  by_cases hn : ∃ s, h = CFloat.nan s
  · obtain ⟨s, rfl⟩ := hn
    simp [gt_nan]
  · have hn' : ∀ s, h ≠ CFloat.nan s := fun s e => hn ⟨s, e⟩
    rw [le_SIX_iff_not_gt h hn']
    simp [hn]

/-- C4: for every value of height exactly one of the two conditional lines is
written: one is among the lines of the output and the other is not, and the two
occur once in total. -/
theorem exactly_one_conditional_line (h : CFloat) :
    (("You're quite tall!".toList ∈ lines (output_with 30 h 'J' 5) ∧
        "Average height noted.".toList ∉ lines (output_with 30 h 'J' 5)) ∨
      ("You're quite tall!".toList ∉ lines (output_with 30 h 'J' 5) ∧
        "Average height noted.".toList ∈ lines (output_with 30 h 'J' 5))) ∧
    (lines (output_with 30 h 'J' 5)).count "You're quite tall!".toList +
      (lines (output_with 30 h 'J' 5)).count "Average height noted.".toList = 1 := by
  constructor
  · rw [tall_mem_iff, average_mem_iff]
    rcases Bool.eq_false_or_eq_true (CFloat.gt h SIX) with hg | hg <;> simp [hg]
  · rw [lines_output_height]
    have e1 : (heightLine h == "You're quite tall!".toList) = false :=
      beq_false_of_ne (heightLine_ne_tall h)
    have e2 : (heightLine h == "Average height noted.".toList) = false :=
      beq_false_of_ne (heightLine_ne_average h)
    rcases Bool.eq_false_or_eq_true (CFloat.gt h SIX) with hg | hg
    · simp only [conditionalLine, hg, if_true, List.count_cons, e1, e2]
      decide
    · simp only [conditionalLine, hg, Bool.false_eq_true, if_false, List.count_cons, e1, e2]
      decide

/-- C5, as stated, fails: for the int values 2147483647 and 1 the computed
`future_age` is not the mathematical sum. -/
theorem future_age_overflow :
    inIntRange 2147483647 ∧ inIntRange 1 ∧ future_age 2147483647 1 ≠ 2147483647 + 1 ∧
      future_age 2147483647 1 = -2147483648 ∧ ¬ inIntRange (2147483647 + 1) := by
  decide

/-- C5, amended: for all integer pairs whose sum lies in the range of int,
`future_age` equals the sum `age + years_later` exactly; for age 30 and
years_later 5 it is 35, within the range of int. -/
theorem future_age_exact (age years_later : Int) (h : inIntRange (age + years_later)) :
    future_age age years_later = age + years_later ∧
      future_age 30 5 = 35 ∧ inIntRange (30 + 5) := by
  refine ⟨?_, by decide, by decide⟩
  unfold inIntRange INT_MIN INT_MAX at h
  unfold future_age int_add wrapInt
  omega

theorem future_age_exact_witness :
    inIntRange (30 + 5) ∧
      (future_age 30 5 = 30 + 5 ∧ future_age 30 5 = 35 ∧ inIntRange (30 + 5)) :=
  ⟨by decide, future_age_exact 30 5 (by decide)⟩

/-- C6: `main` is a total function and its exit status is 0 for all values of
its variables and from every initial world, on the branch a height above 6.0
takes and on the branch the literal height takes. -/
theorem main_returns_zero (age : Int) (h : CFloat) (c : Char) (years_later : Int)
    (w : World) :
    (main_with age h c years_later w).2 = 0 ∧ (main w).2 = 0 ∧
      (CFloat.gt (CFloat.finite false 7 0) SIX = true ∧
        (main_with age (CFloat.finite false 7 0) c years_later w).2 = 0) ∧
      (CFloat.gt height SIX = false ∧ (main_with age height c years_later w).2 = 0) :=
  ⟨rfl, rfl, ⟨by decide, rfl⟩, ⟨by decide, rfl⟩⟩

/-- C7: with the literal height the comparison `height > 6.0` is false, the
average-height line is written and the tall line is not. -/
theorem height_not_gt_six :
    CFloat.gt height SIX = false ∧
      conditionalLine height = "Average height noted.".toList ∧
      "Average height noted." ∈ textLines main_output ∧
      "You're quite tall!" ∉ textLines main_output ∧
      height = CFloat.finite false 12373197 (-21) ∧
      finiteVal false 12373197 (-21) < 6 := by
  refine ⟨by decide, by decide, by decide, by decide, by decide, ?_⟩
  rw [finiteVal_height]
  norm_num

/-- C8: the value stored in `height` is the 24-bit binary value nearest to 5.9,
its tenths round to 59 (the remainder is below one half, so no tie arises), the
conversion `%.1f` renders it as `5.9`, one digit after the decimal point, and
the height line of the output is exactly `Height: 5.9 feet`. -/
theorem height_rendered :
    height = CFloat.finite false 12373197 (-21) ∧
      (∀ (neg : Bool) (m : Fin (2 ^ 24)) (e : Int),
        |finiteVal false 12373197 (-21) - 59 / 10| ≤ |finiteVal neg m e - 59 / 10|) ∧
      tenths 12373197 (-21) = 59 ∧
      2 * ((12373197 * 10) % 2 ^ 21) < 2 ^ 21 ∧
      fmt_1f height = "5.9".toList ∧
      format "Height: %.1f feet\n".toList [Arg.dbl height] = "Height: 5.9 feet\n".toList ∧
      (textLines main_output)[3]? = some "Height: 5.9 feet" := by
  refine ⟨by decide, ?_, by decide, by decide, by decide, by decide, by decide⟩
  intro neg m e
  exact finiteVal_nearest_height neg m e m.isLt

/-- C9: the text a run appends to standard output and its exit status are the
same from any two initial worlds, and a run leaves standard input, the
arguments and the environment untouched. -/
theorem main_deterministic (w1 w2 : World) :
    written w1 = written w2 ∧ (main w1).2 = (main w2).2 ∧
      (main w1).1.stdin = w1.stdin ∧ (main w1).1.argv = w1.argv ∧
      (main w1).1.environ = w1.environ := by
  refine ⟨?_, rfl, ?_, ?_, ?_⟩
  · rw [written_eq, written_eq]
  all_goals
    unfold main main_with printf
    split <;> rfl

/-- C10: for all values of the four variables the output has the same number of
lines whichever branch of the height comparison is taken, its first line is the
header, its last line is the footer, and the conditional line is the
next-to-last line, right after the `In ... years` line. -/
theorem output_shape (age : Int) (h : CFloat) (c : Char) (years_later : Int) :
    (∀ h' : CFloat, (lines (output_with age h c years_later)).length =
        (lines (output_with age h' c years_later)).length) ∧
      (lines (output_with age h c years_later)).head? = some "--- User Profile ---".toList ∧
      (lines (output_with age h c years_later)).getLast? =
        some "--- End of Profile ---".toList ∧
      (∃ pre, lines (output_with age h c years_later) =
        pre ++ [inLine years_later (future_age age years_later), conditionalLine h,
          "--- End of Profile ---".toList]) ∧
      (conditionalLine h = "You're quite tall!".toList ∨
        conditionalLine h = "Average height noted.".toList) := by
  refine ⟨?_, ?_, ?_, ?_, ?_⟩
  · intro h'
    rw [lines_output_with, lines_output_with]
    simp
  · rw [lines_output_with]
    rfl
  · have e : lines (output_with age h c years_later) =
        ("--- User Profile ---".toList :: (initialLines c ++
          [ageLine age, heightLine h, inLine years_later (future_age age years_later),
            conditionalLine h])) ++ ["--- End of Profile ---".toList] := by
      rw [lines_output_with]
      simp
    rw [e, List.getLast?_concat]
  · refine ⟨"--- User Profile ---".toList :: (initialLines c ++
      [ageLine age, heightLine h]), ?_⟩
    rw [lines_output_with]
    simp
  · unfold conditionalLine
    split
    · exact Or.inl rfl
    · exact Or.inr rfl

end SampleAge
